import Mathlib

/-!
# Verification of `nodetools/models/models.py`

A shallow embedding of the memo-protocol core of the `nodetools` repository
(`src/nodetools/models/models.py`): the memo format descriptor
(`MemoStructure`), the fragment group (`MemoGroup`), the structural
classifier (`StructuralPattern.match`), the content pattern
(`MemoPattern`), and the interaction graph (`InteractionGraph`).

Modelling conventions:
* A transaction is a Python dict read through `tx.get(...)`.  Each field we
  model can be absent from the dict, present with value `None`, or present
  with a string value (`MField.absent` / `MField.null` / `MField.str`).
  `MField.get` models `tx.get(key)` (absent and `None` both give `none`);
  `MField.getD d` models `tx.get(key, d)` (absent gives `some d`, a stored
  `None` gives `none`, which later string operations turn into a
  `TypeError`).
* Python strings are modelled through their character lists (`String.data`);
  the two regexes of the source (`c\d+/\d+` and `^chunk_(\d+)__`) are
  unfolded into explicit character scans with `re.match` (match anchored at
  the start only, not at the end) semantics; `\d` is modelled as the ASCII
  digit class.
* Fallible Python code (operations that can raise `TypeError` /
  `AttributeError`) is modelled in `Except PyErr`.
* A compiled regex used as a memo-pattern matcher (`re.Pattern`) is
  modelled as its source text together with its anchored-match function
  (`Matcher.wild`); equality and hashing of patterns only ever look at the
  source text, exactly as the Python code does.
* Python's insertion-ordered `dict` is modelled as an association list where
  updating an existing key keeps its position and a new key is appended.
-/

/-- One memo field of a transaction dict: absent from the dict, present with
value `None`, or present with a string value. -/
inductive MField where
  | absent : MField
  | null : MField
  | str : String → MField
deriving DecidableEq

/-- `tx.get(key)` — `None` for an absent key and for a stored `None`. -/
def MField.get : MField → Option String
  | .absent => none
  | .null => none
  | .str s => some s

/-- `tx.get(key, d)` — the default only applies to an absent key; a stored
`None` is returned as-is (modelled as `none`). -/
def MField.getD (f : MField) (d : String) : Option String :=
  match f with
  | .absent => some d
  | .null => none
  | .str s => some s

/-- The transaction record fields read by the core.  `has_memos` models
`bool(tx.get('has_memos'))`; `datetime` models the orderable timestamp
`tx.get('datetime')` (assumed present, as in every code path that compares
it). -/
structure Tx where
  has_memos : Bool
  memo_type : MField := .absent
  memo_format : MField := .absent
  memo_data : MField := .absent
  transaction_result : MField := .absent
  datetime : Int := 0
deriving DecidableEq

/-- Python runtime errors the modelled code can raise. -/
inductive PyErr where
  | typeError : PyErr
  | attributeError : PyErr
deriving DecidableEq

/-! ## String scanning helpers (embedding `str.split` and the two regexes) -/

/-- `s.split(".")` on the character list of `s` (Python semantics: empty
segments are kept, `"".split(".") == [""]`). -/
def splitOnDot : List Char → List (List Char)
  | [] => [[]]
  | c :: rest =>
    if c == '.' then [] :: splitOnDot rest
    else
      match splitOnDot rest with
      | s :: ss => (c :: s) :: ss
      | [] => [[c]]

/-- `int()` applied to a regex group known to consist of ASCII digits. -/
def digitsToNat (l : List Char) : Nat :=
  l.foldl (fun a c => a * 10 + (c.toNat - 48)) 0

/-- Python's substring containment `needle in hay`. -/
def subIn (needle : List Char) : List Char → Bool
  | [] => needle.isEmpty
  | c :: rest => needle.isPrefixOf (c :: rest) || subIn needle rest

/-- Helper for `re.match(r'c\d+/\d+', ·)`: after the digits following `c`,
the remainder must start with `/` followed by at least one digit. -/
def slashDigits (r : List Char) : Bool :=
  match r with
  | [] => false
  | c :: r2 => c == '/' && !(r2.takeWhile Char.isDigit).isEmpty

/-- `re.match(r'c\d+/\d+', ·)` truthiness on the part after `c`. -/
def chunkTailValid (rest : List Char) : Bool :=
  !(rest.takeWhile Char.isDigit).isEmpty &&
    slashDigits (rest.dropWhile Char.isDigit)

/-- Truthiness of `re.match(r'c\d+/\d+', chunking)`: an anchored *prefix*
match — trailing characters after the second digit run are accepted. -/
def chunkSegValid (l : List Char) : Bool :=
  match l with
  | [] => false
  | c :: rest => c == 'c' && chunkTailValid rest

/-- The two groups of `re.match(r'c(\d+)/(\d+)', chunking)`, converted with
`int(...)`, or `none` when the regex does not match. -/
def parseChunkGroups (l : List Char) : Option (Nat × Nat) :=
  match l with
  | [] => none
  | c :: rest =>
    if c == 'c' then
      let d1 := rest.takeWhile Char.isDigit
      if d1.isEmpty then none
      else
        match rest.dropWhile Char.isDigit with
        | [] => none
        | c2 :: r2 =>
          if c2 == '/' then
            let d2 := r2.takeWhile Char.isDigit
            if d2.isEmpty then none
            else some (digitsToNat d1, digitsToNat d2)
          else none
    else none

/-- Group 1 of `re.match(r'^chunk_(\d+)__', memo_data)` as a digit string,
or `none` when the regex does not match. -/
def chunkPrefixGroup (l : List Char) : Option (List Char) :=
  if ("chunk_".data).isPrefixOf l then
    let rest := l.drop 6
    let ds := rest.takeWhile Char.isDigit
    if ds.isEmpty then none
    else if (['_', '_']).isPrefixOf (rest.dropWhile Char.isDigit) then some ds
    else none
  else none

/-! ## `MemoStructure` (format descriptor) -/

/-- `MemoDataStructureType`: `ECDH = "e"`, `BROTLI = "b"`, `CHUNK = "c"`,
`NONE = "-"`. -/
inductive MemoDataStructureType where
  | ECDH : MemoDataStructureType
  | BROTLI : MemoDataStructureType
  | CHUNK : MemoDataStructureType
  | NONE : MemoDataStructureType
deriving DecidableEq

/-- The `MemoStructure` dataclass. The source field `is_standardized_format`
keeps its name; chunk indices are Python non-negative ints. -/
structure MemoStructure where
  is_chunked : Bool
  chunk_index : Option Nat := none
  total_chunks : Option Nat := none
  group_id : Option String := none
  compression_type : Option MemoDataStructureType := none
  encryption_type : Option MemoDataStructureType := none
  is_standardized_format : Bool := false
deriving DecidableEq

/-- `MemoStructure.is_complete`: a non-chunked memo is always complete. -/
def MemoStructure.is_complete (s : MemoStructure) : Bool :=
  !s.is_chunked

/-- `MemoStructure.is_standardized_memo_format`: `memo_format` must be a
truthy string splitting on `"."` into exactly three parts; part 1 in
`{"e", "-"}`, part 2 in `{"b", "-"}`, part 3 `"-"` or matched by
`re.match(r'c\d+/\d+', ·)`. -/
def MemoStructure.is_standardized_memo_format (memo_format : Option String) : Bool :=
  match memo_format with
  | none => false
  | some mf =>
    if mf.data.isEmpty then false
    else
      match splitOnDot mf.data with
      | [encryption, compression, chunking] =>
        (encryption == ['e'] || encryption == ['-']) &&
        ((compression == ['b'] || compression == ['-']) &&
         (chunking == ['-'] || chunkSegValid chunking))
      | _ => false

/-- `MemoStructure.parse_standardized_format` on a string that already
passed validation (the catch-all branch of the split is unreachable after
validation and mirrors what the decoding would produce for a chunking
segment that fails to match: a non-chunked structure). -/
def MemoStructure.parse_standardized_format (mf : String) : MemoStructure :=
  match splitOnDot mf.data with
  | [encryption, _compression, chunking] =>
    let encryption_type :=
      if encryption == ['e'] then some MemoDataStructureType.ECDH else none
    let compression_type :=
      if _compression == ['b'] then some MemoDataStructureType.BROTLI else none
    let chunks := if chunking == ['-'] then none else parseChunkGroups chunking
    { is_chunked := chunks.isSome
      chunk_index := chunks.map Prod.fst
      total_chunks := chunks.map Prod.snd
      group_id := none
      compression_type := compression_type
      encryption_type := encryption_type
      is_standardized_format := true }
  | _ =>
    { is_chunked := false, is_standardized_format := true }

/-- `MemoStructure.from_transaction`.  The legacy fallback applies
`re.match(r'^chunk_(\d+)__', memo_data)`, which raises a `TypeError` when
the transaction stores `None` under `memo_data` (so that
`tx.get("memo_data", "")` returns `None`).  The compression check
`"COMPRESSED__" in memo_data` is only performed when the chunk group equals
the *string* `"1"`. -/
def MemoStructure.from_transaction (tx : Tx) : Except PyErr MemoStructure :=
  if MemoStructure.is_standardized_memo_format tx.memo_format.get then
    match tx.memo_format.get with
    | some mf =>
      .ok { MemoStructure.parse_standardized_format mf with group_id := tx.memo_type.get }
    | none => .error .typeError
  else
    match tx.memo_data.getD "" with
    | none => .error .typeError
    | some md =>
      let chunk_match := chunkPrefixGroup md.data
      let is_compressed : Option Bool :=
        match chunk_match with
        | some ds => if ds == ['1'] then some (subIn ("COMPRESSED__".data) md.data) else none
        | none => none
      .ok
        { is_chunked := chunk_match.isSome
          chunk_index := chunk_match.map digitsToNat
          total_chunks := none
          group_id := tx.memo_type.get
          compression_type :=
            if is_compressed == some true then some MemoDataStructureType.BROTLI else none
          encryption_type := none
          is_standardized_format := false }

/-! ## `StructuralPattern` (structural classifier) -/

/-- The four classification outcomes of `StructuralPattern`. -/
inductive StructuralPattern where
  | NO_MEMO : StructuralPattern
  | DIRECT_MATCH : StructuralPattern
  | NEEDS_GROUPING : StructuralPattern
  | NEEDS_LEGACY_GROUPING : StructuralPattern
deriving DecidableEq

/-- `StructuralPattern.match` (named `matchTx` since `match` is a Lean
keyword).  The legacy check is `"chunk_" in tx.get('memo_data', '')`, a
substring containment that raises a `TypeError` on a stored `None`. -/
def StructuralPattern.matchTx (tx : Tx) : Except PyErr StructuralPattern :=
  if tx.has_memos = false then .ok .NO_MEMO
  else
    match MemoStructure.from_transaction tx with
    | .error e => .error e
    | .ok s =>
      if s.is_standardized_format then
        .ok (if s.is_chunked then .NEEDS_GROUPING else .DIRECT_MATCH)
      else
        match tx.memo_data.getD "" with
        | none => .error .typeError
        | some md =>
          .ok (if subIn ("chunk_".data) md.data then .NEEDS_LEGACY_GROUPING
               else .DIRECT_MATCH)

/-! ## `MemoGroup` (fragment group) -/

/-- The `MemoGroup` dataclass.  The Python field `structure` is named
`struct` here (`structure` is a Lean keyword); `group_id` holds
`tx.get("memo_type")` of the seeding transaction and can therefore be
`None`. -/
structure MemoGroup where
  group_id : Option String
  memos : List Tx
  struct : Option MemoStructure := none
deriving DecidableEq

/-- `MemoGroup.create_from_transaction`. -/
def MemoGroup.create_from_transaction (tx : Tx) : Except PyErr MemoGroup :=
  match MemoStructure.from_transaction tx with
  | .error e => .error e
  | .ok s => .ok { group_id := tx.memo_type.get, memos := [tx], struct := some s }

/-- `MemoGroup._is_structure_consistent` once the group's structure is
known; attribute access on a `None` structure raises, see `add_memo`. -/
def MemoGroup.is_structure_consistent (gs new_structure : MemoStructure) : Bool :=
  new_structure.encryption_type == gs.encryption_type &&
  (new_structure.compression_type == gs.compression_type &&
   new_structure.total_chunks == gs.total_chunks)

/-- The generator `next((memo for memo in self.memos if
MemoStructure.from_transaction(memo).chunk_index == new_structure.chunk_index),
None)`: first stored memo whose re-derived chunk index equals the new one
(an error derives from a stored memo whose re-derivation raises). -/
def findExistingMemo : List Tx → Nat → Except PyErr (Option Tx)
  | [], _ => .ok none
  | m :: ms, i =>
    match MemoStructure.from_transaction m with
    | .error e => .error e
    | .ok s => if s.chunk_index = some i then .ok (some m) else findExistingMemo ms i

/-- Python `list.remove(x)`: drop the first element equal to `x` (on the
reachable paths of `add_memo` the element is always present). -/
def removeFirst : List Tx → Tx → List Tx
  | [], _ => []
  | y :: ys, x => if y = x then ys else y :: removeFirst ys x

/-- Occurrence count of a transaction in a fragment list (used to reason
about `list.remove` followed by `append`). -/
def countTx : List Tx → Tx → Nat
  | [], _ => 0
  | y :: ys, x => (if y = x then 1 else 0) + countTx ys x

/-- `MemoGroup.add_memo`, returning the Python boolean together with the
resulting group (`self` after the call).  Rejections return the group
unchanged; the duplicate-chunk branch replaces the existing fragment only
when the new transaction's datetime is strictly earlier. -/
def MemoGroup.add_memo (g : MemoGroup) (tx : Tx) : Except PyErr (Bool × MemoGroup) :=
  if tx.transaction_result.get ≠ some "tesSUCCESS" then .ok (false, g)
  else if tx.memo_type.get ≠ g.group_id then .ok (false, g)
  else
    match MemoStructure.from_transaction tx with
    | .error e => .error e
    | .ok new_structure =>
      if new_structure.is_standardized_format then
        match g.struct with
        | none => .error .attributeError
        | some gs =>
          if MemoGroup.is_structure_consistent gs new_structure then
            .ok (true, { g with memos := g.memos ++ [tx] })
          else .ok (false, g)
      else
        match new_structure.chunk_index with
        | some i =>
          match findExistingMemo g.memos i with
          | .error e => .error e
          | .ok (some existing_memo) =>
            if tx.datetime < existing_memo.datetime then
              .ok (true, { g with memos := removeFirst g.memos existing_memo ++ [tx] })
            else .ok (false, g)
          | .ok none => .ok (true, { g with memos := g.memos ++ [tx] })
        | none => .ok (true, { g with memos := g.memos ++ [tx] })

/-- `MemoGroup.chunk_indices`, re-deriving each fragment's structure (an
error derives from a stored memo whose re-derivation raises). -/
def MemoGroup.chunk_indices (g : MemoGroup) : Except PyErr (Finset Nat) :=
  g.memos.foldlM
    (fun acc tx =>
      match MemoStructure.from_transaction tx with
      | .error e => .error e
      | .ok s =>
        match s.chunk_index with
        | some i => .ok (insert i acc)
        | none => .ok acc)
    ∅

/-! ## `MemoPattern` (content pattern) -/

/-- A configured matcher slot: a literal string, or a compiled regex
(`re.Pattern`) carried as its source text (`.pattern`) plus its anchored
`.match` behaviour as a function. -/
inductive Matcher where
  | lit : String → Matcher
  | wild : String → (String → Bool) → Matcher

/-- Python truthiness of a matcher slot value: `None` and the empty string
are falsy; every compiled `re.Pattern` object is truthy. -/
def matcherTruthy : Option Matcher → Bool
  | none => false
  | some (.lit s) => !(s == "")
  | some (.wild _ _) => true

/-- `MemoPattern._pattern_matches`: `pattern.match(value)` truthiness for a
compiled regex, literal equality for a string. -/
def patternMatchesB : Matcher → String → Bool
  | .lit p, v => p == v
  | .wild _ f, v => f v

/-- The frozen `MemoPattern` dataclass. -/
structure MemoPattern where
  memo_type : Option Matcher := none
  memo_format : Option Matcher := none
  memo_data : Option Matcher := none

/-- One slot of `MemoPattern.matches`: `if self.memo_type:` skips falsy
slots (absent, or an empty-string literal); `if not tx_memo_type:` rejects
an absent/`None`/empty transaction field; otherwise `_pattern_matches`. -/
def slotCheck : Option Matcher → Option String → Bool
  | none, _ => true
  | some (.lit p), v =>
    if p == "" then true
    else
      match v with
      | none => false
      | some s => if s == "" then false else p == s
  | some (.wild _ f), v =>
    match v with
    | none => false
    | some s => if s == "" then false else f s

/-- `MemoPattern.matches`. -/
def MemoPattern.matches (p : MemoPattern) (tx : Tx) : Bool :=
  slotCheck p.memo_type tx.memo_type.get &&
  (slotCheck p.memo_format tx.memo_format.get &&
   slotCheck p.memo_data tx.memo_data.get)

/-- `compare_attrs` of `MemoPattern.__eq__`: two compiled regexes compare by
source text; otherwise Python `==` (None equals None, strings by text, a
string never equals a `re.Pattern`). -/
def compareAttrs : Option Matcher → Option Matcher → Bool
  | none, none => true
  | some (.lit a), some (.lit b) => a == b
  | some (.wild a _), some (.wild b _) => a == b
  | _, _ => false

/-- `MemoPattern.__eq__`. -/
def MemoPattern.eqB (p q : MemoPattern) : Bool :=
  compareAttrs p.memo_type q.memo_type &&
  (compareAttrs p.memo_format q.memo_format &&
   compareAttrs p.memo_data q.memo_data)

/-- One component of the tuple hashed by `MemoPattern.__hash__`: a compiled
regex contributes its `.pattern` source text, a literal its text. -/
def hashAttr : Option Matcher → Option String
  | none => none
  | some (.lit s) => some s
  | some (.wild s _) => some s

/-- The tuple hashed by `MemoPattern.__hash__`; equal tuples have equal
Python hashes, so tuple equality models hash equality. -/
def MemoPattern.hashKey (p : MemoPattern) : Option String × Option String × Option String :=
  (hashAttr p.memo_type, hashAttr p.memo_format, hashAttr p.memo_data)

/-! ## `InteractionPattern` and `InteractionGraph` -/

/-- `InteractionType`. -/
inductive InteractionType where
  | REQUEST : InteractionType
  | RESPONSE : InteractionType
  | STANDALONE : InteractionType
deriving DecidableEq

/-- The `InteractionPattern` dataclass; `valid_responses` is declared as a
set but may hold `None` (as `add_pattern` passes its optional argument
straight through). -/
structure InteractionPattern where
  memo_pattern : MemoPattern
  transaction_type : InteractionType
  valid_responses : Option (List MemoPattern)
  notify : Bool := false

/-- Python truthiness of the `valid_responses` argument: `None` and the
empty set are falsy. -/
def vrTruthy : Option (List MemoPattern) → Bool
  | none => false
  | some l => !l.isEmpty

/-- Dataclass construction of `InteractionPattern` including
`__post_init__`, which raises `ValueError` for a RESPONSE with truthy
`valid_responses` or a REQUEST with falsy `valid_responses`. -/
def InteractionPattern.construct (mp : MemoPattern) (t : InteractionType)
    (vr : Option (List MemoPattern)) (notify : Bool) : Except String InteractionPattern :=
  if t = .RESPONSE ∧ vrTruthy vr then
    .error "RESPONSE types cannot have valid_responses"
  else if t = .REQUEST ∧ ¬ vrTruthy vr then
    .error "REQUEST types must have valid_responses"
  else .ok { memo_pattern := mp, transaction_type := t, valid_responses := vr, notify := notify }

/-- Insertion-ordered dict update for a string-keyed dict: replace the value
at the first matching key in place, else append. -/
def dictSetStr {β : Type} (l : List (String × β)) (k : String) (v : β) : List (String × β) :=
  match l with
  | [] => [(k, v)]
  | (k0, v0) :: rest => if k0 = k then (k0, v) :: rest else (k0, v0) :: dictSetStr rest k v

/-- Lookup in a string-keyed dict. -/
def dictGetStr {β : Type} (l : List (String × β)) (k : String) : Option β :=
  match l with
  | [] => none
  | (k0, v0) :: rest => if k0 = k then some v0 else dictGetStr rest k

/-- Insertion-ordered dict update for a `MemoPattern`-keyed dict, using the
`__eq__` of `MemoPattern` for key identity. -/
def dictSetMP {β : Type} (l : List (MemoPattern × β)) (k : MemoPattern) (v : β) :
    List (MemoPattern × β) :=
  match l with
  | [] => [(k, v)]
  | (k0, v0) :: rest =>
    if MemoPattern.eqB k0 k then (k0, v) :: rest else (k0, v0) :: dictSetMP rest k v

/-- Lookup in a `MemoPattern`-keyed dict. -/
def dictGetMP {β : Type} (l : List (MemoPattern × β)) (k : MemoPattern) : Option β :=
  match l with
  | [] => none
  | (k0, v0) :: rest => if MemoPattern.eqB k0 k then some v0 else dictGetMP rest k

/-- The `InteractionGraph`: forward dict `patterns` and reverse dict
`memo_pattern_to_id`. -/
structure InteractionGraph where
  patterns : List (String × InteractionPattern) := []
  memo_pattern_to_id : List (MemoPattern × String) := []

/-- `InteractionGraph.add_pattern`: constructs the `InteractionPattern`
(letting its `__post_init__` error propagate), overwrites the forward entry
for `pattern_id`, and updates the reverse dict for `memo_pattern` —
without removing a stale reverse entry for a previously registered pattern
under the same id. -/
def InteractionGraph.add_pattern (g : InteractionGraph) (pattern_id : String)
    (memo_pattern : MemoPattern) (transaction_type : InteractionType)
    (valid_responses : Option (List MemoPattern) := none) (notify : Bool := false) :
    Except String InteractionGraph :=
  match InteractionPattern.construct memo_pattern transaction_type valid_responses notify with
  | .error e => .error e
  | .ok ip =>
    .ok { patterns := dictSetStr g.patterns pattern_id ip
          memo_pattern_to_id := dictSetMP g.memo_pattern_to_id memo_pattern pattern_id }

/-- `InteractionGraph.is_valid_response`. -/
def InteractionGraph.is_valid_response (g : InteractionGraph) (request_pattern_id : String)
    (response_tx : Tx) : Bool :=
  match dictGetStr g.patterns request_pattern_id with
  | none => false
  | some pat =>
    if pat.transaction_type ≠ .REQUEST then false
    else ((pat.valid_responses.getD []).any fun rp => rp.matches response_tx)

/-- The scan of `InteractionGraph.find_matching_pattern` over the forward
dict's entries in insertion order. -/
def findMatchingIn : List (String × InteractionPattern) → Tx → Option String
  | [], _ => none
  | (pid, pat) :: rest, tx =>
    if pat.memo_pattern.matches tx then some pid else findMatchingIn rest tx

/-- `InteractionGraph.find_matching_pattern`: first registered pattern (in
insertion order) whose memo pattern matches. -/
def InteractionGraph.find_matching_pattern (g : InteractionGraph) (tx : Tx) : Option String :=
  findMatchingIn g.patterns tx

/-- `InteractionGraph.get_pattern_id_by_memo_pattern`: reverse dict lookup. -/
def InteractionGraph.get_pattern_id_by_memo_pattern (g : InteractionGraph)
    (memo_pattern : MemoPattern) : Option String :=
  dictGetMP g.memo_pattern_to_id memo_pattern

/-- `Except` success as a boolean (did the call complete without raising?). -/
def isOkE {ε α : Type} : Except ε α → Bool
  | .ok _ => true
  | .error _ => false

/-! ## Specification-side predicates

These definitions follow the words of the specification (or of a claim as
stated), for comparison against the code-derived definitions above.  They
are used only in theorem statements, never as models of the code. -/

/-- Claim C4 as stated: a configured (non-absent) matcher slot requires the
transaction field to be present and to satisfy the matcher. -/
def claimSlotB : Option Matcher → Option String → Bool
  | none, _ => true
  | some _, none => false
  | some m, some s => patternMatchesB m s

/-- Claim C4's matching predicate over the three slots. -/
def MemoPattern.claimMatches (p : MemoPattern) (tx : Tx) : Bool :=
  claimSlotB p.memo_type tx.memo_type.get &&
  (claimSlotB p.memo_format tx.memo_format.get &&
   claimSlotB p.memo_data tx.memo_data.get)

/-- Amended C4, spec side: a slot is unconstrained when absent or an
empty-string literal; otherwise the transaction field must be present,
non-empty, and satisfy the matcher. -/
def SlotSpec : Option Matcher → Option String → Prop
  | none, _ => True
  | some (.lit p), v => p = "" ∨ ∃ s, v = some s ∧ s ≠ "" ∧ p = s
  | some (.wild _ f), v => ∃ s, v = some s ∧ s ≠ "" ∧ f s = true

/-- C7, spec side: the matcher-slot equality rule — absent equals absent;
literal equals literal iff same text; wildcard equals wildcard iff same
source text; literal never equals wildcard. -/
def AttrEqSpec : Option Matcher → Option Matcher → Prop
  | none, none => True
  | some (.lit a), some (.lit b) => a = b
  | some (.wild a _), some (.wild b _) => a = b
  | _, _ => False

/-- The shape of a matcher slot (absent / literal / compiled regex), used to
characterize `compare_attrs`. -/
def attrKind : Option Matcher → Nat
  | none => 0
  | some (.lit _) => 1
  | some (.wild _ _) => 2

/-- A non-empty run of ASCII digits. -/
def DigitsNE (l : List Char) : Prop := l ≠ [] ∧ ∀ c ∈ l, c.isDigit = true

/-- Amended C1, spec side: the chunking segment *begins with*
`c<uint>/<uint>` — trailing characters are permitted, because `re.match`
anchors only at the start. -/
def ChunkPrefixForm (l : List Char) : Prop :=
  ∃ d1 d2 rest, DigitsNE d1 ∧ DigitsNE d2 ∧ l = 'c' :: (d1 ++ '/' :: (d2 ++ rest))

/-- Claim C1 as stated: the chunking segment is *exactly* `c<uint>/<uint>`. -/
def ChunkExactForm (l : List Char) : Prop :=
  ∃ d1 d2, DigitsNE d1 ∧ DigitsNE d2 ∧ l = 'c' :: (d1 ++ '/' :: d2)

/-- Executable form of the tail of `ChunkExactForm` (nothing may follow the
second digit run). -/
def slashDigitsExact (r : List Char) : Bool :=
  match r with
  | [] => false
  | c :: r2 =>
    c == '/' &&
      (!(r2.takeWhile Char.isDigit).isEmpty && (r2.dropWhile Char.isDigit).isEmpty)

/-- Executable form of `ChunkExactForm`. -/
def chunkExactB (l : List Char) : Bool :=
  match l with
  | [] => false
  | c :: rest =>
    c == 'c' &&
      (!(rest.takeWhile Char.isDigit).isEmpty &&
       slashDigitsExact (rest.dropWhile Char.isDigit))

/-! ## Concrete fixtures for witnesses and counterexamples -/

/-- A legacy-format transaction: the first chunk, carrying the compression
marker. -/
def txC8 : Tx :=
  { has_memos := true, memo_type := .str "LEGACY", memo_format := .str "garbage",
    memo_data := .str "chunk_1__COMPRESSED__xyz", transaction_result := .str "tesSUCCESS" }

/-- A legacy-format transaction: the second chunk, also carrying the
`COMPRESSED__` substring. -/
def txC8b : Tx :=
  { has_memos := true, memo_type := .str "G",
    memo_data := .str "chunk_2__COMPRESSED__xyz", transaction_result := .str "tesSUCCESS" }

/-- An empty fragment group with group id `"G"`. -/
def gEmptyG : MemoGroup := { group_id := some "G", memos := [], struct := none }

/-- Legacy fragment at chunk index 2, the later timestamp. -/
def txA3 : Tx :=
  { has_memos := true, memo_type := .str "G", memo_data := .str "chunk_2__aa",
    transaction_result := .str "tesSUCCESS", datetime := 10 }

/-- Legacy fragment at chunk index 2, the strictly earlier timestamp. -/
def txB3 : Tx :=
  { has_memos := true, memo_type := .str "G", memo_data := .str "chunk_2__bb",
    transaction_result := .str "tesSUCCESS", datetime := 5 }

/-- An already-present legacy fragment at chunk index 2, timestamp 7. -/
def txE10 : Tx :=
  { has_memos := true, memo_type := .str "G", memo_data := .str "chunk_2__old",
    transaction_result := .str "tesSUCCESS", datetime := 7 }

/-- A group already holding `txE10`. -/
def gW10 : MemoGroup := { group_id := some "G", memos := [txE10], struct := none }

/-- A would-be duplicate of `txE10` with the identical timestamp. -/
def txN10 : Tx :=
  { has_memos := true, memo_type := .str "G", memo_data := .str "chunk_2__new",
    transaction_result := .str "tesSUCCESS", datetime := 7 }

/-- A transaction with no settlement result (not `tesSUCCESS`). -/
def txW5 : Tx :=
  { has_memos := true, memo_type := .str "G", memo_data := .str "hello" }

/-- A pattern matching literal memo type `"a"`. -/
def pLitA : MemoPattern := { memo_type := some (.lit "a") }

/-- A pattern matching literal memo type `"b"`. -/
def pLitB : MemoPattern := { memo_type := some (.lit "b") }

/-- A wildcard pattern on source text `"^abc"` with its compiled behaviour. -/
def pWild1 : MemoPattern :=
  { memo_data := some (.wild "^abc" (fun s => s.startsWith "abc")) }

/-- A second wildcard pattern with the same source text (a distinct compiled
object). -/
def pWild2 : MemoPattern :=
  { memo_data := some (.wild "^abc" (fun s => s.startsWith "abc")) }

/-- A pattern configured with an *empty-string literal* memo-type matcher. -/
def patternEmptyLit : MemoPattern := { memo_type := some (.lit "") }

/-- A transaction with every memo field absent. -/
def txNoFields : Tx := { has_memos := false }

/-- The pattern with all three matcher slots absent. -/
def emptyMemoPattern : MemoPattern := {}

/-- The graph after registering id `"pid"` with content pattern `pLitA`. -/
def gW9a : InteractionGraph :=
  { patterns := [("pid", ⟨pLitA, .STANDALONE, none, false⟩)]
    memo_pattern_to_id := [(pLitA, "pid")] }

/-- The graph after re-registering id `"pid"` with content pattern `pLitB`:
the forward entry is overwritten, the stale reverse entry for `pLitA`
remains. -/
def gW9b : InteractionGraph :=
  { patterns := [("pid", ⟨pLitB, .STANDALONE, none, false⟩)]
    memo_pattern_to_id := [(pLitA, "pid"), (pLitB, "pid")] }

/-! ## Helper lemmas -/

lemma is_standardized_some {o : Option String}
    (h : MemoStructure.is_standardized_memo_format o = true) : ∃ mf, o = some mf := by
  cases o with
  | none => simp [MemoStructure.is_standardized_memo_format] at h
  | some mf => exact ⟨mf, rfl⟩

lemma parse_standardized_format_std (mf : String) :
    (MemoStructure.parse_standardized_format mf).is_standardized_format = true := by
  unfold MemoStructure.parse_standardized_format
  split <;> rfl

lemma from_transaction_ok {tx : Tx} {md : String}
    (hmd : tx.memo_data.getD "" = some md) :
    ∃ s, MemoStructure.from_transaction tx = .ok s := by
  unfold MemoStructure.from_transaction
  by_cases hstd : MemoStructure.is_standardized_memo_format tx.memo_format.get
  · obtain ⟨mf, hmf⟩ := is_standardized_some hstd
    rw [if_pos hstd, hmf]
    exact ⟨_, rfl⟩
  · rw [if_neg hstd, hmd]
    exact ⟨_, rfl⟩

lemma memo_data_getD_some {tx : Tx} (h : tx.memo_data ≠ MField.null) :
    ∃ md, tx.memo_data.getD "" = some md := by
  cases hm : tx.memo_data with
  | absent => exact ⟨"", rfl⟩
  | null => exact absurd hm h
  | str s => exact ⟨s, rfl⟩

/-! ## C6: construction-time validation of `InteractionPattern` -/

/-- C6: constructing an `InteractionPattern` (directly, or through
`InteractionGraph.add_pattern`) raises exactly when the role is REQUEST with
an empty or absent valid-responses set, or RESPONSE with a non-empty one;
every other combination constructs without error.  The check lives in
`__post_init__`, i.e. at construction time. -/
theorem interaction_pattern_invariant (mp : MemoPattern) (t : InteractionType)
    (vr : Option (List MemoPattern)) (n : Bool) (g : InteractionGraph) (pid : String) :
    isOkE (InteractionPattern.construct mp t vr n) =
      !((t == .REQUEST && !vrTruthy vr) || (t == .RESPONSE && vrTruthy vr)) ∧
    isOkE (g.add_pattern pid mp t vr n) =
      !((t == .REQUEST && !vrTruthy vr) || (t == .RESPONSE && vrTruthy vr)) := by
  cases t <;> cases hv : vrTruthy vr <;>
    simp [InteractionPattern.construct, InteractionGraph.add_pattern, isOkE, hv]

/-! ## C2: totality of classification -/

/-- C2 counterexample: a transaction whose `memo_data` key is present with
value `None` (and whose format is not current-grammar) makes
`StructuralPattern.match` raise a `TypeError` — `re.match(r'^chunk_(\d+)__',
None)` inside `MemoStructure.from_transaction` — so classification is not
total over records with null memo fields. -/
theorem matchTx_raises_on_null_memo_data :
    StructuralPattern.matchTx { has_memos := true, memo_data := MField.null } =
      .error .typeError := rfl

/-- C2 amended: classification is total — it completes without raising and
returns one of the four outcomes — for every record whose `memo_data`
field, when present, is a string rather than null; and it returns `NO_MEMO`
whenever the memo-presence flag is unset. -/
theorem matchTx_total (tx : Tx) (h : tx.memo_data ≠ MField.null) :
    (∃ r, StructuralPattern.matchTx tx = .ok r) ∧
    (tx.has_memos = false → StructuralPattern.matchTx tx = .ok .NO_MEMO) := by
  obtain ⟨md, hmd⟩ := memo_data_getD_some h
  refine ⟨?_, fun hf => by simp [StructuralPattern.matchTx, hf]⟩
  cases hhm : tx.has_memos with
  | false => exact ⟨.NO_MEMO, by simp [StructuralPattern.matchTx, hhm]⟩
  | true =>
    obtain ⟨s, hs⟩ := from_transaction_ok hmd
    unfold StructuralPattern.matchTx
    rw [hhm, hs]
    by_cases hstd : s.is_standardized_format = true
    · simp [hstd]
    · simp only [Bool.false_eq_true, if_false, if_neg hstd, hmd]
      exact ⟨_, rfl⟩

/-- C2 witness: a concrete record with an absent `memo_data` key classifies
without error. -/
theorem matchTx_total_witness :
    (∃ r, StructuralPattern.matchTx { has_memos := true, memo_type := .str "G" } = .ok r) ∧
    ((({ has_memos := true, memo_type := .str "G" } : Tx)).has_memos = false →
      StructuralPattern.matchTx { has_memos := true, memo_type := .str "G" } = .ok .NO_MEMO) :=
  matchTx_total { has_memos := true, memo_type := .str "G" } (by decide)

/-- Sanity checks: the embedded detector agrees with the Python behaviour on
the docstring examples. -/
lemma is_standardized_examples :
    MemoStructure.is_standardized_memo_format (some "e.b.c1/4") = true ∧
    MemoStructure.is_standardized_memo_format (some "-.b.c2/4") = true ∧
    MemoStructure.is_standardized_memo_format (some "-.-.-") = true ∧
    MemoStructure.is_standardized_memo_format (some "garbage") = false ∧
    MemoStructure.is_standardized_memo_format (some "") = false ∧
    MemoStructure.is_standardized_memo_format none = false := by decide

/-! ## C4: `MemoPattern.matches` -/

lemma slotCheck_iff (m : Option Matcher) (v : Option String) :
    slotCheck m v = true ↔ SlotSpec m v := by
  match m, v with
  | none, v => simp [slotCheck, SlotSpec]
  | some (.lit p), none =>
    by_cases hp : p = "" <;> simp [slotCheck, SlotSpec, hp]
  | some (.lit p), some s =>
    by_cases hp : p = "" <;> by_cases hs : s = "" <;>
      simp [slotCheck, SlotSpec, hp, hs]
  | some (.wild w f), none => simp [slotCheck, SlotSpec]
  | some (.wild w f), some s =>
    by_cases hs : s = "" <;> simp [slotCheck, SlotSpec, hs]

/-- C4 counterexample: a pattern configured with an empty-string literal
memo-type matcher is skipped by Python truthiness (`if self.memo_type:`),
so `matches` returns true on a transaction with no memo-type field at all —
while the claim as stated (configured slot ⇒ field present and satisfying)
demands false. -/
theorem matches_truthiness_counterexample :
    MemoPattern.matches patternEmptyLit txNoFields = true ∧
    MemoPattern.claimMatches patternEmptyLit txNoFields = false := ⟨rfl, rfl⟩

/-- C4 amended: `matches` returns true iff every *truthy* configured slot
(non-absent; an empty-string literal counts as unconfigured) has its
transaction field present, *non-empty*, and satisfying the matcher
(literal equality, or the compiled regex's match anchored at the start);
and the pattern with all slots absent matches every transaction. -/
theorem matches_spec (p : MemoPattern) (tx : Tx) :
    (p.matches tx = true ↔
      SlotSpec p.memo_type tx.memo_type.get ∧ SlotSpec p.memo_format tx.memo_format.get ∧
        SlotSpec p.memo_data tx.memo_data.get) ∧
    MemoPattern.matches emptyMemoPattern tx = true := by
  constructor
  · simp [MemoPattern.matches, slotCheck_iff]
  · rfl

/-- C4 witness: a literal memo-type pattern matches a transaction carrying
exactly that memo type. -/
theorem matches_spec_witness :
    MemoPattern.matches pLitA { has_memos := true, memo_type := .str "a" } = true :=
  (matches_spec pLitA { has_memos := true, memo_type := .str "a" }).1.mpr
    ⟨Or.inr ⟨"a", rfl, by decide, rfl⟩, trivial, trivial⟩

/-! ## C7: `MemoPattern` equality and hashing -/

lemma compareAttrs_iff (a b : Option Matcher) :
    compareAttrs a b = true ↔ AttrEqSpec a b := by
  match a, b with
  | none, none => simp [compareAttrs, AttrEqSpec]
  | none, some (.lit _) => simp [compareAttrs, AttrEqSpec]
  | none, some (.wild _ _) => simp [compareAttrs, AttrEqSpec]
  | some (.lit _), none => simp [compareAttrs, AttrEqSpec]
  | some (.lit a), some (.lit b) => simp [compareAttrs, AttrEqSpec]
  | some (.lit _), some (.wild _ _) => simp [compareAttrs, AttrEqSpec]
  | some (.wild _ _), none => simp [compareAttrs, AttrEqSpec]
  | some (.wild _ _), some (.lit _) => simp [compareAttrs, AttrEqSpec]
  | some (.wild a _), some (.wild b _) => simp [compareAttrs, AttrEqSpec]

lemma compareAttrs_hashAttr {a b : Option Matcher} (h : compareAttrs a b = true) :
    hashAttr a = hashAttr b := by
  match a, b with
  | none, none => rfl
  | none, some (.lit _) => simp [compareAttrs] at h
  | none, some (.wild _ _) => simp [compareAttrs] at h
  | some (.lit _), none => simp [compareAttrs] at h
  | some (.lit a), some (.lit b) =>
    simp [compareAttrs] at h
    simp [hashAttr, h]
  | some (.lit _), some (.wild _ _) => simp [compareAttrs] at h
  | some (.wild _ _), none => simp [compareAttrs] at h
  | some (.wild _ _), some (.lit _) => simp [compareAttrs] at h
  | some (.wild a _), some (.wild b _) =>
    simp [compareAttrs] at h
    simp [hashAttr, h]

/-- C7: `MemoPattern.__eq__` holds iff each of the three matcher slots is
equal under the rule "absent equals absent; literal equals literal iff same
text; wildcard equals wildcard iff same regex source text; literal never
equals wildcard"; and equal patterns have equal hash keys (hence equal
Python hashes), so `MemoPattern` is usable as a dict/set key. -/
theorem memo_pattern_eq_hash (p q : MemoPattern) :
    (MemoPattern.eqB p q = true ↔
      AttrEqSpec p.memo_type q.memo_type ∧ AttrEqSpec p.memo_format q.memo_format ∧
        AttrEqSpec p.memo_data q.memo_data) ∧
    (MemoPattern.eqB p q = true → MemoPattern.hashKey p = MemoPattern.hashKey q) := by
  constructor
  · simp [MemoPattern.eqB, compareAttrs_iff]
  · intro h
    simp only [MemoPattern.eqB, Bool.and_eq_true] at h
    obtain ⟨h1, h2, h3⟩ := h
    simp [MemoPattern.hashKey, compareAttrs_hashAttr h1, compareAttrs_hashAttr h2,
      compareAttrs_hashAttr h3]

/-- C7 witness: two wildcard patterns built from the same source text
`"^abc"` are equal and share a hash key. -/
theorem memo_pattern_eq_hash_witness :
    MemoPattern.hashKey pWild1 = MemoPattern.hashKey pWild2 :=
  (memo_pattern_eq_hash pWild1 pWild2).2 rfl

/-! ## C8: legacy fallback and the compression marker -/

/-- C8: the concrete legacy transaction (format `"garbage"`, content
`"chunk_1__COMPRESSED__xyz"`) classifies as `NEEDS_LEGACY_GROUPING` with
descriptor `is_chunked = true`, `chunk_index = 1`,
`compression_type = BROTLI`; and in general, under legacy derivation the
`COMPRESSED__` substring yields a compression marker only when the chunk
index is 1 — for any other index the marker is `none` (unknown), and a
`BROTLI` marker implies index 1. -/
theorem legacy_compression_marker :
    (StructuralPattern.matchTx txC8 = .ok .NEEDS_LEGACY_GROUPING ∧
      MemoStructure.from_transaction txC8 =
        .ok { is_chunked := true, chunk_index := some 1, total_chunks := none,
              group_id := some "LEGACY", compression_type := some .BROTLI,
              encryption_type := none, is_standardized_format := false }) ∧
    (∀ tx s n, MemoStructure.from_transaction tx = .ok s →
        s.is_standardized_format = false → s.chunk_index = some n → n ≠ 1 →
        s.compression_type = none) ∧
    (∀ tx s, MemoStructure.from_transaction tx = .ok s →
        s.is_standardized_format = false → s.compression_type = some .BROTLI →
        s.chunk_index = some 1) := by
  refine ⟨⟨rfl, rfl⟩, ?_, ?_⟩
  · intro tx s n hft hstd hidx hne
    unfold MemoStructure.from_transaction at hft
    split at hft
    · split at hft
      · injection hft with h
        rw [← h] at hstd
        simp [parse_standardized_format_std] at hstd
      · exact absurd hft (by simp)
    · split at hft
      · exact absurd hft (by simp)
      · injection hft with h
        subst h
        simp only at hidx ⊢
        cases hcm : chunkPrefixGroup _ with
        | none => rw [hcm] at hidx; simp at hidx
        | some ds =>
          rw [hcm] at hidx
          have hidx : digitsToNat ds = n := by simpa using hidx
          by_cases hds : ds == ['1']
          · exfalso
            apply hne
            rw [← hidx, (beq_iff_eq.mp hds)]
            rfl
          · simp [hds]
  · intro tx s hft hstd hcomp
    unfold MemoStructure.from_transaction at hft
    split at hft
    · split at hft
      · injection hft with h
        rw [← h] at hstd
        simp [parse_standardized_format_std] at hstd
      · exact absurd hft (by simp)
    · split at hft
      · exact absurd hft (by simp)
      · injection hft with h
        subst h
        simp only at hcomp ⊢
        cases hcm : chunkPrefixGroup _ with
        | none => rw [hcm] at hcomp; simp at hcomp
        | some ds =>
          rw [hcm] at hcomp
          by_cases hds : ds == ['1']
          · rw [beq_iff_eq.mp hds]
            rfl
          · simp [hds] at hcomp

/-- C8 witness: a second-chunk legacy fragment carrying the `COMPRESSED__`
substring still gets an unknown (`none`) compression marker. -/
theorem legacy_compression_marker_witness :
    (MemoStructure.mk true (some 2) none (some "G") none none false).compression_type = none :=
  legacy_compression_marker.2.1 txC8b
    (MemoStructure.mk true (some 2) none (some "G") none none false) 2 rfl rfl rfl
    (by decide)

/-! ## Fragment-group helper lemmas -/

lemma findExistingMemo_mem {l : List Tx} {i : Nat} {e : Tx}
    (h : findExistingMemo l i = .ok (some e)) : e ∈ l := by
  induction l with
  | nil => simp [findExistingMemo] at h
  | cons m ms ih =>
    unfold findExistingMemo at h
    cases hft : MemoStructure.from_transaction m with
    | error e' => rw [hft] at h; exact absurd h (by simp)
    | ok s =>
      rw [hft] at h
      simp only at h
      split at h
      · simp only [Except.ok.injEq, Option.some.injEq] at h
        subst h
        exact List.mem_cons_self m ms
      · exact List.mem_cons_of_mem m (ih h)

lemma findExistingMemo_none_spec {l : List Tx} {i : Nat}
    (h : findExistingMemo l i = .ok none) :
    ∀ m ∈ l, ∃ s, MemoStructure.from_transaction m = .ok s ∧ s.chunk_index ≠ some i := by
  induction l with
  | nil => intro m hm; simp at hm
  | cons m0 ms ih =>
    intro m hm
    unfold findExistingMemo at h
    cases hft : MemoStructure.from_transaction m0 with
    | error e' => rw [hft] at h; exact absurd h (by simp)
    | ok s0 =>
      rw [hft] at h
      simp only at h
      split at h
      next hcond => exact absurd h (by simp)
      next hcond =>
        rcases List.mem_cons.mp hm with rfl | hm'
        · exact ⟨s0, hft, hcond⟩
        · exact ih h m hm'

lemma findExistingMemo_append_none {l1 : List Tx} {i : Nat}
    (h : findExistingMemo l1 i = .ok none) (l2 : List Tx) :
    findExistingMemo (l1 ++ l2) i = findExistingMemo l2 i := by
  induction l1 with
  | nil => simp
  | cons m ms ih =>
    unfold findExistingMemo at h
    cases hft : MemoStructure.from_transaction m with
    | error e' => rw [hft] at h; exact absurd h (by simp)
    | ok s =>
      rw [hft] at h
      simp only at h
      split at h
      next hcond => exact absurd h (by simp)
      next hcond =>
        have hstep : findExistingMemo ((m :: ms) ++ l2) i =
            match MemoStructure.from_transaction m with
            | .error e' => .error e'
            | .ok s => if s.chunk_index = some i then .ok (some m)
              else findExistingMemo (ms ++ l2) i := rfl
        rw [hstep, hft]
        simp only [hcond, if_false]
        exact ih h

lemma removeFirst_append_after {l1 l2 : List Tx} {x : Tx} (hx : x ∉ l1) :
    removeFirst (l1 ++ x :: l2) x = l1 ++ l2 := by
  induction l1 with
  | nil => simp [removeFirst]
  | cons y ys ih =>
    have hyx : y ≠ x := fun he => hx (he ▸ List.mem_cons_self y ys)
    simp only [List.cons_append, removeFirst, if_neg hyx]
    exact congrArg (y :: ·) (ih fun hm => hx (List.mem_cons_of_mem y hm))

lemma append_singleton_ne (l : List Tx) (x : Tx) : l ++ [x] ≠ l := by
  intro h
  have hl := congrArg List.length h
  simp only [List.length_append, List.length_singleton] at hl
  omega

lemma countTx_append (l1 l2 : List Tx) (x : Tx) :
    countTx (l1 ++ l2) x = countTx l1 x + countTx l2 x := by
  induction l1 with
  | nil => simp [countTx]
  | cons y ys ih => simp [countTx, ih, Nat.add_assoc]

lemma countTx_pos {l : List Tx} {x : Tx} (h : x ∈ l) : 0 < countTx l x := by
  induction l with
  | nil => simp at h
  | cons y ys ih =>
    rcases List.mem_cons.mp h with rfl | h'
    · simp [countTx]
    · have := ih h'
      simp only [countTx]
      omega

lemma countTx_removeFirst {l : List Tx} {x : Tx} (h : x ∈ l) :
    countTx (removeFirst l x) x = countTx l x - 1 := by
  induction l with
  | nil => simp at h
  | cons y ys ih =>
    by_cases hyx : y = x
    · subst hyx
      simp [removeFirst, countTx]
    · rcases List.mem_cons.mp h with rfl | h'
      · exact absurd rfl hyx
      · simp only [removeFirst, if_neg hyx, countTx, ih h']
        have := countTx_pos h'
        omega

lemma removeFirst_append_singleton_ne {l : List Tx} {e x : Tx} (he : e ∈ l) (hne : x ≠ e) :
    removeFirst l e ++ [x] ≠ l := by
  intro heq
  have hc := congrArg (fun t => countTx t e) heq
  simp only [countTx_append, countTx_removeFirst he, countTx, if_neg hne] at hc
  have := countTx_pos he
  omega

/-! ## C10: duplicate legacy fragment with identical timestamp -/

/-- C10: when a legacy fragment arrives at a chunk index already occupied by
a fragment with the identical timestamp, `add_memo` keeps the
already-present fragment, leaves the group unchanged, and returns false
(the strict `<` comparison deterministically favours the earlier-arrived
fragment). -/
theorem legacy_duplicate_equal_timestamp (g : MemoGroup) (tx e : Tx) (i : Nat)
    (s : MemoStructure)
    (hres : tx.transaction_result.get = some "tesSUCCESS")
    (hgid : tx.memo_type.get = g.group_id)
    (hft : MemoStructure.from_transaction tx = .ok s)
    (hstd : s.is_standardized_format = false)
    (hidx : s.chunk_index = some i)
    (hfind : findExistingMemo g.memos i = .ok (some e))
    (hdt : tx.datetime = e.datetime) :
    g.add_memo tx = .ok (false, g) ∧ e ∈ g.memos := by
  refine ⟨?_, findExistingMemo_mem hfind⟩
  simp [MemoGroup.add_memo, hres, hgid, hft, hstd, hidx, hfind, hdt]

/-- C10 witness: a concrete duplicate with equal timestamp is refused and
the group keeps the original fragment. -/
theorem legacy_duplicate_equal_timestamp_witness :
    gW10.add_memo txN10 = .ok (false, gW10) ∧ txE10 ∈ gW10.memos :=
  legacy_duplicate_equal_timestamp gW10 txN10 txE10 2
    (MemoStructure.mk true (some 2) none (some "G") none none false)
    rfl rfl rfl rfl rfl rfl rfl

/-! ## C5: `add_memo` rejections and the mutation iff -/

/-- C5: on any completing call, `add_memo` returns false and leaves the
fragment list unchanged when the settlement status is not `tesSUCCESS`,
when the group id differs, or when a current-grammar fragment disagrees
with the group's established structure on encryption, compression, or
total chunk count; and it returns true iff the call mutated the fragment
list. -/
theorem add_memo_rejection_and_mutation (g : MemoGroup) (tx : Tx) (b : Bool) (g' : MemoGroup)
    (h : MemoGroup.add_memo g tx = .ok (b, g')) :
    (b = true ↔ g'.memos ≠ g.memos) ∧
    (tx.transaction_result.get ≠ some "tesSUCCESS" → b = false ∧ g' = g) ∧
    (tx.memo_type.get ≠ g.group_id → b = false ∧ g' = g) ∧
    (∀ ns gs, MemoStructure.from_transaction tx = .ok ns →
        ns.is_standardized_format = true → g.struct = some gs →
        MemoGroup.is_structure_consistent gs ns = false → b = false ∧ g' = g) := by
  unfold MemoGroup.add_memo at h
  split at h
  case isTrue hres =>
    simp only [Except.ok.injEq, Prod.mk.injEq] at h
    obtain ⟨hb, hg⟩ := h
    subst hb; subst hg
    exact ⟨by simp, fun _ => ⟨rfl, rfl⟩, fun _ => ⟨rfl, rfl⟩, fun _ _ _ _ _ _ => ⟨rfl, rfl⟩⟩
  case isFalse hres =>
    split at h
    case isTrue hgid =>
      simp only [Except.ok.injEq, Prod.mk.injEq] at h
      obtain ⟨hb, hg⟩ := h
      subst hb; subst hg
      exact ⟨by simp, fun _ => ⟨rfl, rfl⟩, fun _ => ⟨rfl, rfl⟩, fun _ _ _ _ _ _ => ⟨rfl, rfl⟩⟩
    case isFalse hgid =>
      cases hft : MemoStructure.from_transaction tx with
      | error e => rw [hft] at h; exact absurd h (by simp)
      | ok ns0 =>
        rw [hft] at h
        simp only at h
        split at h
        case isTrue hstd0 =>
          cases hgs : g.struct with
          | none => rw [hgs] at h; exact absurd h (by simp)
          | some gs0 =>
            rw [hgs] at h
            simp only at h
            split at h
            case isTrue hcons =>
              simp only [Except.ok.injEq, Prod.mk.injEq] at h
              obtain ⟨hb, hg⟩ := h
              subst hb; subst hg
              refine ⟨by simp [append_singleton_ne], fun hc => absurd hc hres,
                fun hc => absurd hc hgid, ?_⟩
              intro ns gs hft' hstd' hgs' hcons'
              injection hft' with hns
              subst hns
              injection hgs' with hgs'
              subst hgs'
              rw [hcons] at hcons'
              exact absurd hcons' (by simp)
            case isFalse hcons =>
              simp only [Except.ok.injEq, Prod.mk.injEq] at h
              obtain ⟨hb, hg⟩ := h
              subst hb; subst hg
              exact ⟨by simp, fun _ => ⟨rfl, rfl⟩, fun _ => ⟨rfl, rfl⟩,
                fun _ _ _ _ _ _ => ⟨rfl, rfl⟩⟩
        case isFalse hstd0 =>
          have hgen : ∀ ns gs, (Except.ok ns0 : Except PyErr MemoStructure) = .ok ns →
              ns.is_standardized_format = true → g.struct = some gs →
              MemoGroup.is_structure_consistent gs ns = false → b = false ∧ g' = g := by
            intro ns gs hft' hstd' _ _
            injection hft' with hns
            subst hns
            exact absurd hstd' hstd0
          cases hidx : ns0.chunk_index with
          | some i =>
            simp only [hidx] at h
            cases hfind : findExistingMemo g.memos i with
            | error e => rw [hfind] at h; exact absurd h (by simp)
            | ok oe =>
              rw [hfind] at h
              cases oe with
              | some e0 =>
                simp only at h
                split at h
                case isTrue hdt =>
                  simp only [Except.ok.injEq, Prod.mk.injEq] at h
                  obtain ⟨hb, hg⟩ := h
                  subst hb; subst hg
                  have hne : tx ≠ e0 := by
                    intro he
                    rw [he] at hdt
                    exact lt_irrefl _ hdt
                  refine ⟨by simp [removeFirst_append_singleton_ne
                      (findExistingMemo_mem hfind) hne],
                    fun hc => absurd hc hres, fun hc => absurd hc hgid, hgen⟩
                case isFalse hdt =>
                  simp only [Except.ok.injEq, Prod.mk.injEq] at h
                  obtain ⟨hb, hg⟩ := h
                  subst hb; subst hg
                  exact ⟨by simp, fun _ => ⟨rfl, rfl⟩, fun _ => ⟨rfl, rfl⟩, hgen⟩
              | none =>
                simp only [Except.ok.injEq, Prod.mk.injEq] at h
                obtain ⟨hb, hg⟩ := h
                subst hb; subst hg
                exact ⟨by simp [append_singleton_ne], fun hc => absurd hc hres,
                  fun hc => absurd hc hgid, hgen⟩
          | none =>
            rw [hidx] at h
            simp only [Except.ok.injEq, Prod.mk.injEq] at h
            obtain ⟨hb, hg⟩ := h
            subst hb; subst hg
            exact ⟨by simp [append_singleton_ne], fun hc => absurd hc hres,
              fun hc => absurd hc hgid, hgen⟩

/-- C5 witness: a transaction whose settlement result is absent is refused
and the group is unchanged. -/
theorem add_memo_rejection_and_mutation_witness :
    (false = true ↔ gEmptyG.memos ≠ gEmptyG.memos) ∧
    (txW5.transaction_result.get ≠ some "tesSUCCESS" → false = false ∧ gEmptyG = gEmptyG) ∧
    (txW5.memo_type.get ≠ gEmptyG.group_id → false = false ∧ gEmptyG = gEmptyG) ∧
    (∀ ns gs, MemoStructure.from_transaction txW5 = .ok ns →
        ns.is_standardized_format = true → gEmptyG.struct = some gs →
        MemoGroup.is_structure_consistent gs ns = false → false = false ∧ gEmptyG = gEmptyG) :=
  add_memo_rejection_and_mutation gEmptyG txW5 false gEmptyG rfl

/-! ## C3: earliest-timestamp tie-break is order-independent -/

/-- C3: for two legacy fragments A and B carrying the same chunk index with
B's timestamp strictly earlier, adding both (in either order) to a group
whose fragments do not occupy that index yields the same fragment list —
containing B and not A. -/
theorem legacy_tiebreak_order_independent
    (g : MemoGroup) (A B : Tx) (i : Nat) (sA sB : MemoStructure)
    (hAres : A.transaction_result.get = some "tesSUCCESS")
    (hBres : B.transaction_result.get = some "tesSUCCESS")
    (hAgid : A.memo_type.get = g.group_id)
    (hBgid : B.memo_type.get = g.group_id)
    (hA : MemoStructure.from_transaction A = .ok sA)
    (hAstd : sA.is_standardized_format = false)
    (hAi : sA.chunk_index = some i)
    (hB : MemoStructure.from_transaction B = .ok sB)
    (hBstd : sB.is_standardized_format = false)
    (hBi : sB.chunk_index = some i)
    (hdt : B.datetime < A.datetime)
    (hfree : findExistingMemo g.memos i = .ok none) :
    ∃ gA gAB gB gBA,
      g.add_memo A = .ok (true, gA) ∧ gA.add_memo B = .ok (true, gAB) ∧
      g.add_memo B = .ok (true, gB) ∧ gB.add_memo A = .ok (false, gBA) ∧
      gAB.memos = g.memos ++ [B] ∧ gBA.memos = g.memos ++ [B] ∧
      B ∈ gAB.memos ∧ A ∉ gAB.memos ∧ B ∈ gBA.memos ∧ A ∉ gBA.memos := by
  have hAnotin : A ∉ g.memos := by
    intro hmem
    obtain ⟨s, hs, hne⟩ := findExistingMemo_none_spec hfree A hmem
    rw [hA] at hs
    injection hs with hs
    subst hs
    exact hne hAi
  have hABne : A ≠ B := by
    intro he
    rw [he] at hdt
    exact lt_irrefl _ hdt
  have hfindA : findExistingMemo (g.memos ++ [A]) i = .ok (some A) := by
    rw [findExistingMemo_append_none hfree [A]]
    simp [findExistingMemo, hA, hAi]
  have hfindB : findExistingMemo (g.memos ++ [B]) i = .ok (some B) := by
    rw [findExistingMemo_append_none hfree [B]]
    simp [findExistingMemo, hB, hBi]
  have hrm : removeFirst (g.memos ++ [A]) A = g.memos := by
    simpa using @removeFirst_append_after g.memos [] A hAnotin
  have hstep1 : g.add_memo A = .ok (true, { g with memos := g.memos ++ [A] }) := by
    simp [MemoGroup.add_memo, hAres, hAgid, hA, hAstd, hAi, hfree]
  have hstep2 : MemoGroup.add_memo { g with memos := g.memos ++ [A] } B =
      .ok (true, { g with memos := g.memos ++ [B] }) := by
    simp [MemoGroup.add_memo, hBres, hBgid, hB, hBstd, hBi, hfindA, hdt, hrm]
  have hstep3 : g.add_memo B = .ok (true, { g with memos := g.memos ++ [B] }) := by
    simp [MemoGroup.add_memo, hBres, hBgid, hB, hBstd, hBi, hfree]
  have hstep4 : MemoGroup.add_memo { g with memos := g.memos ++ [B] } A =
      .ok (false, { g with memos := g.memos ++ [B] }) := by
    have hnlt : ¬ (A.datetime < B.datetime) := not_lt.mpr (le_of_lt hdt)
    simp [MemoGroup.add_memo, hAres, hAgid, hA, hAstd, hAi, hfindB, hnlt]
  refine ⟨_, _, _, _, hstep1, hstep2, hstep3, hstep4, rfl, rfl, ?_, ?_, ?_, ?_⟩
  · simp
  · simp [hAnotin, hABne]
  · simp
  · simp [hAnotin, hABne]

/-- C3 witness: two concrete legacy fragments at chunk index 2, with the
second-added (or first-added) one 5 ticks earlier, leave the group holding
exactly the earlier fragment in both insertion orders. -/
theorem legacy_tiebreak_order_independent_witness :
    ∃ gA gAB gB gBA,
      gEmptyG.add_memo txA3 = .ok (true, gA) ∧ gA.add_memo txB3 = .ok (true, gAB) ∧
      gEmptyG.add_memo txB3 = .ok (true, gB) ∧ gB.add_memo txA3 = .ok (false, gBA) ∧
      gAB.memos = gEmptyG.memos ++ [txB3] ∧ gBA.memos = gEmptyG.memos ++ [txB3] ∧
      txB3 ∈ gAB.memos ∧ txA3 ∉ gAB.memos ∧ txB3 ∈ gBA.memos ∧ txA3 ∉ gBA.memos :=
  legacy_tiebreak_order_independent gEmptyG txA3 txB3 2
    (MemoStructure.mk true (some 2) none (some "G") none none false)
    (MemoStructure.mk true (some 2) none (some "G") none none false)
    rfl rfl rfl rfl rfl rfl rfl rfl rfl rfl (by decide) rfl

/-! ## C9: stale reverse-index entry on re-registration -/

lemma compareAttrs_char (a b : Option Matcher) :
    compareAttrs a b = true ↔ (attrKind a = attrKind b ∧ hashAttr a = hashAttr b) := by
  match a, b with
  | none, none => simp [compareAttrs, attrKind, hashAttr]
  | none, some (.lit _) => simp [compareAttrs, attrKind, hashAttr]
  | none, some (.wild _ _) => simp [compareAttrs, attrKind, hashAttr]
  | some (.lit _), none => simp [compareAttrs, attrKind, hashAttr]
  | some (.lit a), some (.lit b) => simp [compareAttrs, attrKind, hashAttr]
  | some (.lit _), some (.wild _ _) => simp [compareAttrs, attrKind, hashAttr]
  | some (.wild _ _), none => simp [compareAttrs, attrKind, hashAttr]
  | some (.wild _ _), some (.lit _) => simp [compareAttrs, attrKind, hashAttr]
  | some (.wild a _), some (.wild b _) => simp [compareAttrs, attrKind, hashAttr]

lemma compareAttrs_refl (a : Option Matcher) : compareAttrs a a = true :=
  (compareAttrs_char a a).mpr ⟨rfl, rfl⟩

lemma compareAttrs_symm {a b : Option Matcher} (h : compareAttrs a b = true) :
    compareAttrs b a = true := by
  obtain ⟨h1, h2⟩ := (compareAttrs_char a b).mp h
  exact (compareAttrs_char b a).mpr ⟨h1.symm, h2.symm⟩

lemma compareAttrs_trans {a b c : Option Matcher} (h1 : compareAttrs a b = true)
    (h2 : compareAttrs b c = true) : compareAttrs a c = true := by
  obtain ⟨k1, m1⟩ := (compareAttrs_char a b).mp h1
  obtain ⟨k2, m2⟩ := (compareAttrs_char b c).mp h2
  exact (compareAttrs_char a c).mpr ⟨k1.trans k2, m1.trans m2⟩

lemma MemoPattern.eqB_refl (p : MemoPattern) : MemoPattern.eqB p p = true := by
  simp [MemoPattern.eqB, compareAttrs_refl]

lemma MemoPattern.eqB_symm {p q : MemoPattern} (h : MemoPattern.eqB p q = true) :
    MemoPattern.eqB q p = true := by
  simp only [MemoPattern.eqB, Bool.and_eq_true] at h ⊢
  exact ⟨compareAttrs_symm h.1, compareAttrs_symm h.2.1, compareAttrs_symm h.2.2⟩

lemma MemoPattern.eqB_trans {p q r : MemoPattern} (h1 : MemoPattern.eqB p q = true)
    (h2 : MemoPattern.eqB q r = true) : MemoPattern.eqB p r = true := by
  simp only [MemoPattern.eqB, Bool.and_eq_true] at h1 h2 ⊢
  exact ⟨compareAttrs_trans h1.1 h2.1, compareAttrs_trans h1.2.1 h2.2.1,
    compareAttrs_trans h1.2.2 h2.2.2⟩

lemma dictGetStr_set_self {β : Type} (l : List (String × β)) (k : String) (v : β) :
    dictGetStr (dictSetStr l k v) k = some v := by
  induction l with
  | nil => simp [dictSetStr, dictGetStr]
  | cons kv rest ih =>
    obtain ⟨k0, v0⟩ := kv
    by_cases hk : k0 = k
    · simp [dictSetStr, dictGetStr, hk]
    · simp [dictSetStr, dictGetStr, hk, ih]

lemma dictGetMP_set_self {β : Type} (l : List (MemoPattern × β)) (k : MemoPattern) (v : β) :
    dictGetMP (dictSetMP l k v) k = some v := by
  induction l with
  | nil => simp [dictSetMP, dictGetMP, MemoPattern.eqB_refl]
  | cons kv rest ih =>
    obtain ⟨k0, v0⟩ := kv
    by_cases hk : MemoPattern.eqB k0 k = true
    · simp [dictSetMP, dictGetMP, hk]
    · simp [dictSetMP, dictGetMP, hk, ih]

lemma dictGetMP_set_ne {β : Type} {k1 k2 : MemoPattern}
    (hne : MemoPattern.eqB k1 k2 = false) (l : List (MemoPattern × β)) (v : β) :
    dictGetMP (dictSetMP l k2 v) k1 = dictGetMP l k1 := by
  induction l with
  | nil =>
    have h21 : MemoPattern.eqB k2 k1 = false := by
      cases h : MemoPattern.eqB k2 k1
      · rfl
      · exact absurd (MemoPattern.eqB_symm h) (by simp [hne])
    simp [dictSetMP, dictGetMP, h21]
  | cons kv rest ih =>
    obtain ⟨k0, v0⟩ := kv
    by_cases h02 : MemoPattern.eqB k0 k2 = true
    · have h01 : MemoPattern.eqB k0 k1 = false := by
        cases h : MemoPattern.eqB k0 k1
        · rfl
        · exact absurd (MemoPattern.eqB_trans (MemoPattern.eqB_symm h) h02) (by simp [hne])
      simp [dictSetMP, dictGetMP, h02, h01]
    · simp [dictSetMP, dictGetMP, h02, ih]

lemma construct_memo_pattern {mp : MemoPattern} {t : InteractionType}
    {vr : Option (List MemoPattern)} {n : Bool} {ip : InteractionPattern}
    (h : InteractionPattern.construct mp t vr n = .ok ip) : ip.memo_pattern = mp := by
  unfold InteractionPattern.construct at h
  split at h
  · exact absurd h (by simp)
  · split at h
    · exact absurd h (by simp)
    · injection h with h
      subst h
      rfl

/-- C9: after registering id P with content pattern p1 and re-registering
the same id with a different pattern p2, the forward map yields p2 for P,
while the reverse lookup applied to the old pattern p1 still returns P —
the stale reverse-index entry is not removed. -/
theorem stale_reverse_index_entry (g : InteractionGraph) (P : String) (p1 p2 : MemoPattern)
    (t1 t2 : InteractionType) (vr1 vr2 : Option (List MemoPattern)) (n1 n2 : Bool)
    (g1 g2 : InteractionGraph)
    (h1 : g.add_pattern P p1 t1 vr1 n1 = .ok g1)
    (h2 : g1.add_pattern P p2 t2 vr2 n2 = .ok g2)
    (hne : MemoPattern.eqB p1 p2 = false) :
    (∃ ip, dictGetStr g2.patterns P = some ip ∧ ip.memo_pattern = p2) ∧
    g2.get_pattern_id_by_memo_pattern p1 = some P := by
  unfold InteractionGraph.add_pattern at h1 h2
  cases hc1 : InteractionPattern.construct p1 t1 vr1 n1 with
  | error e => rw [hc1] at h1; exact absurd h1 (by simp)
  | ok ip1 =>
    rw [hc1] at h1
    injection h1 with h1
    cases hc2 : InteractionPattern.construct p2 t2 vr2 n2 with
    | error e => rw [hc2] at h2; exact absurd h2 (by simp)
    | ok ip2 =>
      rw [hc2] at h2
      injection h2 with h2
      subst h1
      subst h2
      refine ⟨⟨ip2, ?_, construct_memo_pattern hc2⟩, ?_⟩
      · exact dictGetStr_set_self _ _ _
      · show dictGetMP (dictSetMP (dictSetMP g.memo_pattern_to_id p1 P) p2 P) p1 = some P
        rw [dictGetMP_set_ne hne]
        exact dictGetMP_set_self _ _ _

/-- C9 witness: registering `"pid"` with the literal-`"a"` pattern and then
re-registering `"pid"` with the literal-`"b"` pattern leaves the reverse
lookup of the old pattern still answering `"pid"`. -/
theorem stale_reverse_index_entry_witness :
    (∃ ip, dictGetStr gW9b.patterns "pid" = some ip ∧ ip.memo_pattern = pLitB) ∧
    gW9b.get_pattern_id_by_memo_pattern pLitA = some "pid" :=
  stale_reverse_index_entry ⟨[], []⟩ "pid" pLitA pLitB .STANDALONE .STANDALONE
    none none false false gW9a gW9b rfl rfl rfl

/-! ## C1: current-grammar detection -/

lemma takeWhile_append_all {p : Char → Bool} {l1 : List Char} (h : ∀ c ∈ l1, p c = true)
    (l2 : List Char) : (l1 ++ l2).takeWhile p = l1 ++ l2.takeWhile p := by
  induction l1 with
  | nil => simp
  | cons c cs ih =>
    have hc : p c = true := h c (List.mem_cons_self c cs)
    simp [List.takeWhile_cons, hc, ih fun x hx => h x (List.mem_cons_of_mem c hx)]

lemma dropWhile_append_all {p : Char → Bool} {l1 : List Char} (h : ∀ c ∈ l1, p c = true)
    (l2 : List Char) : (l1 ++ l2).dropWhile p = l2.dropWhile p := by
  induction l1 with
  | nil => simp
  | cons c cs ih =>
    have hc : p c = true := h c (List.mem_cons_self c cs)
    simp [List.dropWhile_cons, hc, ih fun x hx => h x (List.mem_cons_of_mem c hx)]

lemma chunkSegValid_iff (l : List Char) : chunkSegValid l = true ↔ ChunkPrefixForm l := by
  constructor
  · intro h
    cases l with
    | nil => simp [chunkSegValid] at h
    | cons c rest =>
      simp only [chunkSegValid, Bool.and_eq_true, beq_iff_eq] at h
      obtain ⟨hc, htail⟩ := h
      subst hc
      simp only [chunkTailValid, Bool.and_eq_true, Bool.not_eq_true'] at htail
      obtain ⟨hd1, hslash⟩ := htail
      cases hdrop : rest.dropWhile Char.isDigit with
      | nil => rw [hdrop] at hslash; simp [slashDigits] at hslash
      | cons c2 r2 =>
        rw [hdrop] at hslash
        simp only [slashDigits, Bool.and_eq_true, beq_iff_eq, Bool.not_eq_true'] at hslash
        obtain ⟨hc2, hd2⟩ := hslash
        subst hc2
        refine ⟨rest.takeWhile Char.isDigit, r2.takeWhile Char.isDigit,
          r2.dropWhile Char.isDigit,
          ⟨?_, fun x hx => List.mem_takeWhile_imp hx⟩,
          ⟨?_, fun x hx => List.mem_takeWhile_imp hx⟩, ?_⟩
        · intro he; rw [he] at hd1; simp at hd1
        · intro he; rw [he] at hd2; simp at hd2
        · rw [List.takeWhile_append_dropWhile, ← hdrop, List.takeWhile_append_dropWhile]
  · rintro ⟨d1, d2, rest, ⟨hd1ne, hd1dig⟩, ⟨hd2ne, hd2dig⟩, rfl⟩
    have hsl : ¬ (Char.isDigit '/' = true) := by decide
    have h0 : d1.isEmpty = false := by
      cases d1 with
      | nil => exact absurd rfl hd1ne
      | cons x xs => rfl
    have h1 : (d1 ++ '/' :: (d2 ++ rest)).takeWhile Char.isDigit = d1 := by
      rw [takeWhile_append_all hd1dig, List.takeWhile_cons, if_neg hsl, List.append_nil]
    have h2 : (d1 ++ '/' :: (d2 ++ rest)).dropWhile Char.isDigit = '/' :: (d2 ++ rest) := by
      rw [dropWhile_append_all hd1dig, List.dropWhile_cons, if_neg hsl]
    have h3 : ((d2 ++ rest).takeWhile Char.isDigit).isEmpty = false := by
      rw [takeWhile_append_all hd2dig]
      cases d2 with
      | nil => exact absurd rfl hd2ne
      | cons x xs => rfl
    simp [chunkSegValid, chunkTailValid, h1, h2, h3, slashDigits, h0]

lemma chunkExactForm_imp {l : List Char} (h : ChunkExactForm l) : chunkExactB l = true := by
  obtain ⟨d1, d2, ⟨hd1ne, hd1dig⟩, ⟨hd2ne, hd2dig⟩, rfl⟩ := h
  have hsl : ¬ (Char.isDigit '/' = true) := by decide
  have h0 : d1.isEmpty = false := by
    cases d1 with
    | nil => exact absurd rfl hd1ne
    | cons x xs => rfl
  have h1 : (d1 ++ '/' :: d2).takeWhile Char.isDigit = d1 := by
    rw [takeWhile_append_all hd1dig, List.takeWhile_cons, if_neg hsl, List.append_nil]
  have h2 : (d1 ++ '/' :: d2).dropWhile Char.isDigit = '/' :: d2 := by
    rw [dropWhile_append_all hd1dig, List.dropWhile_cons, if_neg hsl]
  have h3 : d2.takeWhile Char.isDigit = d2 := by
    simpa using takeWhile_append_all hd2dig []
  have h4 : d2.dropWhile Char.isDigit = [] := by
    simpa using dropWhile_append_all hd2dig []
  have h5 : d2.isEmpty = false := by
    cases d2 with
    | nil => exact absurd rfl hd2ne
    | cons x xs => rfl
  simp [chunkExactB, h1, h2, h0, slashDigitsExact, h3, h4, h5]

/-- C1 counterexample: the format string `"-.-.c1/4x"` is accepted by
`is_standardized_memo_format` although its third dot-separated segment
`"c1/4x"` is not exactly of the form `c<uint>/<uint>` (nor `"-"`):
`re.match(r'c\d+/\d+', ·)` anchors only at the start, so trailing
characters are accepted, contradicting the claim's "exactly". -/
theorem is_standardized_not_exact_counterexample :
    MemoStructure.is_standardized_memo_format (some "-.-.c1/4x") = true ∧
    splitOnDot ("-.-.c1/4x".data) = [['-'], ['-'], ['c', '1', '/', '4', 'x']] ∧
    ¬ (['c', '1', '/', '4', 'x'] = ['-'] ∨ ChunkExactForm ['c', '1', '/', '4', 'x']) := by
  refine ⟨by decide, by decide, ?_⟩
  rintro (h | h)
  · exact absurd h (by decide)
  · exact absurd (chunkExactForm_imp h) (by decide)

/-- C1 amended: `is_standardized_memo_format` returns true iff the format
string is present and splits on `"."` into exactly three segments with
segment 1 in `{"e", "-"}`, segment 2 in `{"b", "-"}`, and segment 3 either
`"-"` or *beginning with* `c<uint>/<uint>` (trailing characters permitted);
every deviating, empty, or absent string yields false, never an error. -/
theorem is_standardized_memo_format_spec (mf : Option String) :
    MemoStructure.is_standardized_memo_format mf = true ↔
      ∃ s, mf = some s ∧ ∃ e c ch, splitOnDot s.data = [e, c, ch] ∧
        (e = ['e'] ∨ e = ['-']) ∧ (c = ['b'] ∨ c = ['-']) ∧
        (ch = ['-'] ∨ ChunkPrefixForm ch) := by
  cases mf with
  | none => simp [MemoStructure.is_standardized_memo_format]
  | some s =>
    have hdef : MemoStructure.is_standardized_memo_format (some s) =
        (if s.data.isEmpty then false
         else
           match splitOnDot s.data with
           | [encryption, compression, chunking] =>
             (encryption == ['e'] || encryption == ['-']) &&
             ((compression == ['b'] || compression == ['-']) &&
              (chunking == ['-'] || chunkSegValid chunking))
           | _ => false) := rfl
    rw [hdef]
    constructor
    · intro h
      refine ⟨s, rfl, ?_⟩
      split at h
      · exact absurd h (by simp)
      · split at h
        next e c ch heq =>
          simp only [Bool.and_eq_true, Bool.or_eq_true, beq_iff_eq] at h
          obtain ⟨h1, h2, h3⟩ := h
          refine ⟨e, c, ch, heq, h1, h2, ?_⟩
          rcases h3 with h3 | h3
          · exact Or.inl h3
          · exact Or.inr ((chunkSegValid_iff ch).mp h3)
        next hne => exact absurd h (by simp)
    · rintro ⟨s', hss, e, c, ch, hsp, h1, h2, h3⟩
      injection hss with hss
      subst hss
      have hne : s.data.isEmpty = false := by
        cases hd : s.data with
        | nil => rw [hd] at hsp; simp [splitOnDot] at hsp
        | cons x xs => rfl
      rw [if_neg (by simp [hne])]
      simp only [hsp, Bool.and_eq_true, Bool.or_eq_true, beq_iff_eq]
      refine ⟨h1, h2, ?_⟩
      rcases h3 with h3 | h3
      · exact Or.inl h3
      · exact Or.inr ((chunkSegValid_iff ch).mpr h3)

/-- C1 witness: the chunked current-grammar string `"e.b.c2/4"` is accepted,
through the amended characterization. -/
theorem is_standardized_memo_format_spec_witness :
    MemoStructure.is_standardized_memo_format (some "e.b.c2/4") = true :=
  (is_standardized_memo_format_spec (some "e.b.c2/4")).mpr
    ⟨"e.b.c2/4", rfl, ['e'], ['b'], ['c', '2', '/', '4'], by decide,
      Or.inl rfl, Or.inl rfl,
      Or.inr ⟨['2'], ['4'], [], ⟨by decide, by decide⟩, ⟨by decide, by decide⟩, by decide⟩⟩
